import Mathlib

/-!
# Verification of the BOSS analyzer core (`src/app.py`)

This file shallowly embeds the analysis core of the repository — the text
normalizer `clean`, the payment-term candidate extractor and resolver
`find_payment_days`, the indemnity classifier `find_indemnity`, and the
fact-to-signal composer (the `lights` construction in `analyze`) — and proves
or refutes the frozen claims about them.

The Python code works by regular-expression scanning (`re.search`,
`re.finditer`) with backtracking semantics.  We embed this faithfully with a
small ordered-alternation backtracking matcher (`mrun`) over a regex syntax
`RE`, and transcribe each pattern of the source literally into an `RE` term.
`re.IGNORECASE` is modelled by lower-casing both sides (the inputs of interest
are ASCII); Python's `\s`, `\w`, `\d` are modelled by their ASCII portions;
`.` matches any character except a newline, as in Python.
-/

namespace Boss

/-- ASCII portion of Python's `\s` class: space, tab, newline, carriage
return, vertical tab, form feed. -/
def isPyWs (c : Char) : Bool :=
  c = ' ' || c = '\t' || c = '\n' || c = '\r' || c = '\x0b' || c = '\x0c'

/-- ASCII portion of Python's `\w` class (used for `\b` word boundaries). -/
def isWordChar (c : Char) : Bool := c.isAlphanum || c = '_'

/-- Capture-group bindings of one match: pairs of group index and captured
substring, most recent binding first. -/
abbrev Caps := List (Nat × List Char)

/-- Regular-expression syntax.  Repetition is only ever applied to a single
character class (`reps`), which is all the source's patterns need; `reps`
is greedy, as are Python's `?`, `*`, `+`, `{m,n}`. Alternation is ordered,
as in Python. -/
inductive RE where
  | eps
  | chr (p : Char → Bool)
  | cat (a b : RE)
  | alt (a b : RE)
  | reps (lo : Nat) (hi : Option Nat) (p : Char → Bool)
  | wb
  | grp (i : Nat) (a : RE)

/-- Greedy optional `a?` — try `a` first, then the empty alternative. -/
def opt (a : RE) : RE := .alt a .eps

/-- Length of the longest run of characters satisfying `p` at the head of the
list, capped at `hi` when given. -/
def maxRun (p : Char → Bool) : Option Nat → List Char → Nat
  | _, [] => 0
  | hi, c :: cs =>
    if hi = some 0 then 0
    else if p c then 1 + maxRun p (hi.map (· - 1)) cs else 0

/-- Is there a word boundary between the reversed prefix `rev` and the
remaining input `rem`? (`\b`: word-ness differs on the two sides; outside the
string counts as non-word.) -/
def wordBoundary (rev rem : List Char) : Bool :=
  (match rev with | [] => false | c :: _ => isWordChar c)
    != (match rem with | [] => false | c :: _ => isWordChar c)

/-- Backtracking helper for greedy class repetition: try consuming `j` head
characters of `rem` (largest `j` first, down to `lo`), passing the rest to the
continuation `k`. All `j ≤` the precomputed maximal run, so the consumed
characters all satisfy the class. -/
def repsGo {α : Type} (lo : Nat) (rev rem : List Char) (caps : Caps)
    (k : List Char → List Char → Caps → Option α) : Nat → Option α
  | 0 => if lo = 0 then k rev rem caps else none
  | j + 1 =>
    (if lo ≤ j + 1 then
        k ((rem.take (j + 1)).reverse ++ rev) (rem.drop (j + 1)) caps
      else none).orElse
      (fun _ => repsGo lo rev rem caps k j)

/-- The backtracking matcher, in continuation-passing style: match `re`
against a prefix of `rem` (with already-consumed input `rev`, reversed, kept
for `\b` context), extending the capture map `caps`, and call `k` on every
candidate way of matching until `k` succeeds.  This is exactly Python's
ordered-alternation greedy backtracking for this pattern fragment. -/
def mrun {α : Type} : RE → List Char → List Char → Caps →
    (List Char → List Char → Caps → Option α) → Option α
  | .eps, rev, rem, caps, k => k rev rem caps
  | .chr p, rev, rem, caps, k =>
    match rem with
    | [] => none
    | c :: cs => if p c then k (c :: rev) cs caps else none
  | .cat a b, rev, rem, caps, k =>
    mrun a rev rem caps (fun rev1 rem1 caps1 => mrun b rev1 rem1 caps1 k)
  | .alt a b, rev, rem, caps, k =>
    (mrun a rev rem caps k).orElse (fun _ => mrun b rev rem caps k)
  | .reps lo hi p, rev, rem, caps, k =>
    repsGo lo rev rem caps k (maxRun p hi rem)
  | .wb, rev, rem, caps, k =>
    if wordBoundary rev rem then k rev rem caps else none
  | .grp i a, rev, rem, caps, k =>
    mrun a rev rem caps (fun rev1 rem1 caps1 =>
      k rev1 rem1 ((i, rem.take (rem.length - rem1.length)) :: caps1))

/-- Attempt an anchored match of `re` at the current position; on success
return the number of characters consumed and the capture bindings. -/
def tryMatchAt (re : RE) (rev rem : List Char) : Option (Nat × Caps) :=
  mrun re rev rem [] (fun _ rem1 caps => some (rem.length - rem1.length, caps))

/-- `re.search`: scan left to right for the first position where an anchored
match succeeds; return its start index, length and captures. -/
def searchFrom (re : RE) (rev : List Char) : List Char → Nat → Option (Nat × Nat × Caps)
  | rem, idx =>
    match tryMatchAt re rev rem with
    | some (len, caps) => some (idx, len, caps)
    | none =>
      match rem with
      | [] => none
      | c :: cs => searchFrom re (c :: rev) cs (idx + 1)

/-- Boolean form of `re.search` (used where the code only tests truthiness). -/
def reTest (re : RE) (l : List Char) : Bool := (searchFrom re [] l 0).isSome

/-- `re.finditer` body: repeatedly find the next match, resuming after its
end (advancing one character after a zero-width match, as Python does); the
fuel argument is an upper bound on the number of steps, `length + 1`. -/
def finditerAux (re : RE) : Nat → List Char → List Char → List Caps
  | 0, _, _ => []
  | fuel + 1, rev, rem =>
    match tryMatchAt re rev rem with
    | some (len, caps) =>
      if len = 0 then
        match rem with
        | [] => [caps]
        | c :: cs => caps :: finditerAux re fuel (c :: rev) cs
      else
        caps :: finditerAux re fuel ((rem.take len).reverse ++ rev) (rem.drop len)
    | none =>
      match rem with
      | [] => []
      | c :: cs => finditerAux re fuel (c :: rev) cs

/-- All non-overlapping matches of `re` in `l`, leftmost first: `re.finditer`. -/
def finditer (re : RE) (l : List Char) : List Caps :=
  finditerAux re (l.length + 1) [] l

/-- `m.group(i)`: the captured substring for group `i`, if the group
participated in the match. -/
def getGrp (caps : Caps) (i : Nat) : Option (List Char) :=
  (caps.find? (fun p => p.1 == i)).map (fun p => p.2)

/-- A single case-insensitive literal character (`re.IGNORECASE`). -/
def chrCI (c : Char) : RE := .chr (fun x => x.toLower = c)

/-- Case-insensitive literal word. -/
def litL : List Char → RE
  | [] => .eps
  | c :: cs => .cat (chrCI c) (litL cs)

/-- Case-insensitive literal word, from a string. -/
def lit (s : String) : RE := litL s.data

/-! ## The patterns of `src/app.py`, transcribed literally -/

/-- Line 33: `EXPLICIT_TWO = re.compile(r"\b(net\s*2|within\s*\(?2\)?\s*(?:business\s*)?days?)\b", re.I)` -/
def EXPLICIT_TWO : RE :=
  .cat .wb (.cat
    (.grp 1 (.alt
      (.cat (lit "net") (.cat (.reps 0 none isPyWs) (.chr (· = '2'))))
      (.cat (lit "within") (.cat (.reps 0 none isPyWs)
        (.cat (opt (.chr (· = '('))) (.cat (.chr (· = '2')) (.cat (opt (.chr (· = ')')))
          (.cat (.reps 0 none isPyWs)
            (.cat (opt (.cat (lit "business") (.reps 0 none isPyWs)))
              (.cat (lit "day") (opt (chrCI 's'))))))))))))
    .wb)

/-- Line 36 filter: `re.search(r"(payment|invoice|receipt|payable|net|due|days?)", t, re.I)` -/
def keywordRE : RE :=
  .grp 1 (.alt (lit "payment") (.alt (lit "invoice") (.alt (lit "receipt")
    (.alt (lit "payable") (.alt (lit "net") (.alt (lit "due")
      (.cat (lit "day") (opt (chrCI 's')))))))))

/-- Line 38: `r"\bnet[-\s]?((\d{1,3})|([a-z]+)\s*\(\s*(\d{1,3})\s*\)|([a-z]+))\b"` with `re.I` -/
def netRE : RE :=
  .cat .wb (.cat (lit "net") (.cat (opt (.chr (fun c => c = '-' || isPyWs c)))
    (.cat (.grp 1 (.alt
      (.grp 2 (.reps 1 (some 3) Char.isDigit))
      (.alt
        (.cat (.grp 3 (.reps 1 none Char.isAlpha))
          (.cat (.reps 0 none isPyWs)
            (.cat (.chr (· = '('))
              (.cat (.reps 0 none isPyWs)
                (.cat (.grp 4 (.reps 1 (some 3) Char.isDigit))
                  (.cat (.reps 0 none isPyWs) (.chr (· = ')'))))))))
        (.grp 5 (.reps 1 none Char.isAlpha)))))
      .wb)))

/-- Line 44: `r"\b(?:due\s+(?:in|within)|within)\s+(?:\(?([a-z]+)\)?\s*)?(?:\(?(\d{1,3})\)?)?\s*(?:calendar\s*)?days?\b"` with `re.I` -/
def withinRE : RE :=
  .cat .wb (.cat
    (.alt (.cat (lit "due") (.cat (.reps 1 none isPyWs) (.alt (lit "in") (lit "within"))))
      (lit "within"))
    (.cat (.reps 1 none isPyWs)
      (.cat (opt (.cat (opt (.chr (· = '(')))
          (.cat (.grp 1 (.reps 1 none Char.isAlpha))
            (.cat (opt (.chr (· = ')'))) (.reps 0 none isPyWs)))))
        (.cat (opt (.cat (opt (.chr (· = '(')))
            (.cat (.grp 2 (.reps 1 (some 3) Char.isDigit)) (opt (.chr (· = ')'))))))
          (.cat (.reps 0 none isPyWs)
            (.cat (opt (.cat (lit "calendar") (.reps 0 none isPyWs)))
              (.cat (lit "day") (.cat (opt (chrCI 's')) .wb))))))))

/-- Line 50: `r"\bpast\s+due\s+(?:after\s+)?(\d{1,3})\s*days?\b"` with `re.I` -/
def pastRE : RE :=
  .cat .wb (.cat (lit "past") (.cat (.reps 1 none isPyWs) (.cat (lit "due")
    (.cat (.reps 1 none isPyWs)
      (.cat (opt (.cat (lit "after") (.reps 1 none isPyWs)))
        (.cat (.grp 1 (.reps 1 (some 3) Char.isDigit))
          (.cat (.reps 0 none isPyWs)
            (.cat (lit "day") (.cat (opt (chrCI 's')) .wb)))))))))

/-- Line 71: `r".{0,200}indemnif(?:y|ication).{0,400}"` with `re.I` (the
literal part is matched case-insensitively; `.` matches anything but a
newline). -/
def indemnRE : RE :=
  .cat (.reps 0 (some 200) (fun c => c != '\n'))
    (.cat (lit "indemnif")
      (.cat (.alt (chrCI 'y') (lit "ication"))
        (.reps 0 (some 400) (fun c => c != '\n'))))

/-- Line 73: `r"(each\s+party|mutual(?:ly)?\s+indemn|both\s+parties)"` with `re.I` -/
def mutualRE : RE :=
  .grp 1 (.alt
    (.cat (lit "each") (.cat (.reps 1 none isPyWs) (lit "party")))
    (.alt
      (.cat (lit "mutual") (.cat (opt (lit "ly")) (.cat (.reps 1 none isPyWs) (lit "indemn"))))
      (.cat (lit "both") (.cat (.reps 1 none isPyWs) (lit "parties")))))

/-! ## The analysis functions of `src/app.py` -/

mutual

/-- Lines 19-20: first pass of `re.sub(r"\s+", " ", s)` — each maximal
whitespace run becomes a single space. -/
def collapseWs : List Char → List Char
  | [] => []
  | c :: cs => if isPyWs c then ' ' :: collapseRun cs else c :: collapseWs cs

/-- Skips the rest of the current whitespace run for `collapseWs`. -/
def collapseRun : List Char → List Char
  | [] => []
  | c :: cs => if isPyWs c then collapseRun cs else c :: collapseWs cs

end

/-- Python `str.strip()`: drop leading and trailing whitespace. -/
def stripWs (l : List Char) : List Char :=
  ((l.dropWhile isPyWs).reverse.dropWhile isPyWs).reverse

/-- Lines 19-20: `def clean(s): return re.sub(r"\s+", " ", (s or "")).strip()` -/
def clean (s : String) : String := ⟨stripWs (collapseWs s.data)⟩

/-- Lines 22-27: the `WORD` table. -/
def WORD : List (List Char × Nat) :=
  [("one".data, 1), ("two".data, 2), ("three".data, 3), ("four".data, 4),
   ("five".data, 5), ("six".data, 6), ("seven".data, 7), ("eight".data, 8),
   ("nine".data, 9), ("ten".data, 10), ("eleven".data, 11), ("twelve".data, 12),
   ("thirteen".data, 13), ("fourteen".data, 14), ("fifteen".data, 15),
   ("sixteen".data, 16), ("seventeen".data, 17), ("eighteen".data, 18),
   ("nineteen".data, 19), ("twenty".data, 20), ("thirty".data, 30),
   ("forty".data, 40), ("fifty".data, 50), ("sixty".data, 60),
   ("seventy".data, 70), ("eighty".data, 80), ("ninety".data, 90),
   ("hundred".data, 100)]

/-- Lines 28-31: `word_to_num` — `None`/empty is unresolved; otherwise
lower-case, strip non-`[a-z]` characters, and look up the table. -/
def word_to_num (x : List Char) : Option Nat :=
  if x = [] then none
  else WORD.lookup ((x.map Char.toLower).filter Char.isLower)

/-- `int(s)` on a digit string. -/
def digitsToNat (l : List Char) : Nat :=
  l.foldl (fun acc c => 10 * acc + (c.toNat - '0'.toNat)) 0

/-- Python `a or b` on optional captured strings: `None` and `""` are falsy. -/
def pyOrS (a b : Option (List Char)) : Option (List Char) :=
  match a with
  | some s => if s = [] then b else some s
  | none => b

/-- `n = int(n) if (n and n.isdigit()) else word_to_num(n)` (lines 40, 46). -/
def resolveNumToken : Option (List Char) → Option Nat
  | none => none
  | some s => if s ≠ [] && s.all Char.isDigit then some (digitsToNat s) else word_to_num s

/-- Separator class of line 36: `re.split(r"[\r\n.]+", text)`. -/
def isSegSep (c : Char) : Bool := c = '\r' || c = '\n' || c = '.'

mutual

/-- Body of `re.split(r"[\r\n.]+", text)`: split on maximal separator runs,
accumulating the current segment in `cur`. -/
def splitSegsGo (cur : List Char) : List Char → List (List Char)
  | [] => [cur.reverse]
  | c :: cs => if isSegSep c then cur.reverse :: splitSegsSkip cs else splitSegsGo (c :: cur) cs

/-- Skips the rest of a separator run for `splitSegsGo`. -/
def splitSegsSkip : List Char → List (List Char)
  | [] => [[]]
  | c :: cs => if isSegSep c then splitSegsSkip cs else splitSegsGo [c] cs

end

/-- `re.split(r"[\r\n.]+", text)`. -/
def splitSegs (l : List Char) : List (List Char) := splitSegsGo [] l

/-- Does a segment mention one of the payment keywords (line 36)? -/
def hasKeyword (seg : List Char) : Bool := reTest keywordRE seg

/-- Line 36: `relevant = ". ".join([t for t in re.split(r"[\r\n.]+", text) if re.search(..., t, re.I)])` -/
def relevantOf (text : List Char) : List Char :=
  List.intercalate ". ".data ((splitSegs text).filter hasKeyword)

/-- Lines 38-40: the numbers extracted by each match of the `net` pattern:
`m.group(2) or m.group(4) or m.group(5)` resolved by `int`/`word_to_num`. -/
def netNums (rel : List Char) : List (Option Nat) :=
  (finditer netRE rel).map (fun caps =>
    resolveNumToken (pyOrS (getGrp caps 2) (pyOrS (getGrp caps 4) (getGrp caps 5))))

/-- Lines 41-43: candidate produced from one `net`-pattern value. -/
def netCand : Option Nat → Option (Nat × Nat)
  | none => none
  | some n => if n = 2 then some (2, 3) else if 5 ≤ n && n ≤ 365 then some (n, 8) else none

/-- The `(duration, priority)` candidates of the `net` family. -/
def netPicks (rel : List Char) : List (Nat × Nat) := (netNums rel).filterMap netCand

/-- Lines 44-46: numbers extracted by the `due within / within` pattern:
`m.group(2) or m.group(1)`. -/
def withinNums (rel : List Char) : List (Option Nat) :=
  (finditer withinRE rel).map (fun caps =>
    resolveNumToken (pyOrS (getGrp caps 2) (getGrp caps 1)))

/-- Lines 47-49: candidate produced from one `within`-pattern value. -/
def withinCand : Option Nat → Option (Nat × Nat)
  | none => none
  | some n => if n = 2 then some (2, 3) else if 5 ≤ n && n ≤ 365 then some (n, 7) else none

/-- The `(duration, priority)` candidates of the `within` family. -/
def withinPicks (rel : List Char) : List (Nat × Nat) := (withinNums rel).filterMap withinCand

/-- Lines 50-51: numbers extracted by the `past due` pattern: `int(m.group(1))`
(group 1 always participates in a match of this pattern). -/
def pastNums (rel : List Char) : List Nat :=
  (finditer pastRE rel).filterMap (fun caps => (getGrp caps 1).map digitsToNat)

/-- Line 52: candidate produced from one `past due` value. -/
def pastCand (n : Nat) : Option (Nat × Nat) :=
  if 5 ≤ n && n ≤ 365 then some (n, 5) else none

/-- The `(duration, priority)` candidates of the `past due` family. -/
def pastPicks (rel : List Char) : List (Nat × Nat) := (pastNums rel).filterMap pastCand

/-- All candidates, in the order the code appends them (net, within, past). -/
def allPicks (rel : List Char) : List (Nat × Nat) :=
  netPicks rel ++ withinPicks rel ++ pastPicks rel

/-- Line 54 sort key `lambda x: (-x[1], x[0])`, as a total preorder on
candidates: descending priority, then ascending duration. -/
def pickLeR (a b : Nat × Nat) : Prop :=
  b.2 < a.2 ∨ (a.2 = b.2 ∧ a.1 ≤ b.1)

instance : DecidableRel pickLeR := fun a b => by unfold pickLeR; infer_instance

instance : IsTotal (Nat × Nat) pickLeR := ⟨by intro a b; unfold pickLeR; omega⟩

instance : IsTrans (Nat × Nat) pickLeR := ⟨by intro a b c; unfold pickLeR; omega⟩

/-- Line 56 guard test: `EXPLICIT_TWO.search(relevant)`. -/
def expTwoFound (rel : List Char) : Bool := reTest EXPLICIT_TWO rel

/-- Lines 53-58: resolve the candidate list — empty list yields `None`; sort
by the key, stably, and take the head; if the winner's value is 2 and the
explicit two-day pattern is absent from the relevant text, return `None`.
Python's `list.sort` is a stable sort; a stable sort's output is uniquely
determined by the key, so the stable `List.insertionSort` (which keeps
key-ties in their original order) produces exactly the same list. -/
def resolvePicks (picks : List (Nat × Nat)) (relevant : List Char) : Option Nat :=
  match picks.insertionSort pickLeR with
  | [] => none
  | w :: _ => if w.1 = 2 then (if expTwoFound relevant then some w.1 else none) else some w.1

/-- Lines 35-58: `find_payment_days` (the source computes `relevant` once and
uses it both for extraction and for the guard re-scan; everything is pure, so
writing the subterm twice denotes the same value). -/
def find_payment_days (text : List Char) : Option Nat :=
  resolvePicks (allPicks (relevantOf text)) (relevantOf text)

/-- Lines 70-73: `find_indemnity` — search for the window pattern; if absent
return `"none"`, else classify the matched window by the mutuality pattern. -/
def find_indemnity (text : List Char) : String :=
  match searchFrom indemnRE [] text 0 with
  | none => "none"
  | some (start, len, _) =>
    if reTest mutualRE ((text.drop start).take len) then "mutual" else "one-sided"

/-! ## The fact-to-signal composer (lines 123-132 of `analyze`) -/

/-- One entry of the `lights` output. -/
structure Light where
  label : String
  status : String
  note : String
deriving DecidableEq

/-- Lines 124-127: the Payment Terms light. -/
def paymentLight : Option Nat → Light
  | none => ⟨"Payment Terms", "fail", "(not found)"⟩
  | some d =>
    if d ≤ 30 then ⟨"Payment Terms", "pass", "(" ++ toString d ++ " days)"⟩
    else if d ≤ 60 then ⟨"Payment Terms", "warn", "(" ++ toString d ++ " days)"⟩
    else ⟨"Payment Terms", "fail", "(" ++ toString d ++ " days)"⟩

/-- Lines 123-132: the `lights` list built by `analyze` from the extracted
facts. -/
def lightsOf (days : Option Nat) (noa ns conv : Bool) (indem : String) : List Light :=
  [paymentLight days,
   ⟨"NOA to Rev Capital", if noa then "pass" else "fail",
     if noa then "(found)" else "(not found)"⟩,
   ⟨"Client Hire / Non-Solicit", if ns then "pass" else "warn",
     if ns then "(present)" else "(missing)"⟩,
   ⟨"Conversions", if conv then "pass" else "warn",
     if conv then "(present)" else "(missing)"⟩,
   ⟨"Indemnity", if indem = "none" || indem = "mutual" then "pass" else "fail",
     if indem = "mutual" then "(mutual)"
     else if indem = "none" then "(none)" else "(one-sided)"⟩,
   ⟨"Insurance", "warn", "(client minimums not auto-evaluated here)"⟩]

/-! ## Derived observers used to state the claims -/

/-- The pre-guard winner for a text: the head of the stably sorted candidate
list (the value the code reads as `picks[0]` on line 55). -/
def winnerOf (text : List Char) : Option (Nat × Nat) :=
  ((allPicks (relevantOf text)).insertionSort pickLeR).head?

/-- A single-sentence input "net d days" with `d` in digits. -/
def netSentence (d : Nat) : List Char :=
  "net ".data ++ (Nat.repr d).data ++ " days".data

/-- The claim's keyword set, as the spec spells it. -/
def keywordList : List (List Char) :=
  ["payment".data, "invoice".data, "receipt".data, "payable".data,
   "net".data, "due".data, "days".data]

/-- `w` occurs as a whole word in `l` at position `i`: its characters appear
there case-insensitively and the adjacent positions are absent or non-word. -/
def wordOccursAt (w l : List Char) (i : Nat) : Bool :=
  ((l.drop i).take w.length).map Char.toLower == w &&
    (i == 0 || !isWordChar (l.getD (i - 1) ' ')) &&
    !isWordChar (l.getD (i + w.length) ' ')

/-- Some keyword of the claim's set occurs in `l` as a whole word. -/
def containsWordKeyword (l : List Char) : Bool :=
  (List.range (l.length + 1)).any fun i => keywordList.any fun w => wordOccursAt w l i

/-- Case-insensitively, the word `w` starts at the head of `u`. -/
def ciPre (w u : List Char) : Prop := (u.take w.length).map Char.toLower = w

instance (w u : List Char) : Decidable (ciPre w u) := by unfold ciPre; infer_instance

/-- An occurrence of "indemnify" or "indemnification" starts at the head of
`u` (the two are mutually exclusive: they differ at their ninth character). -/
def occHead (u : List Char) : Prop :=
  ciPre "indemnify".data u ∨ ciPre "indemnification".data u

instance (u : List Char) : Decidable (occHead u) := by unfold occHead; infer_instance

/-- Length of the occurrence token starting at the head of `u`. -/
def tokLenAt (u : List Char) : Nat := if ciPre "indemnify".data u then 9 else 15

/-- Index of the first occurrence in `t`, if any. -/
def firstOccIdx : List Char → Option Nat
  | [] => none
  | c :: cs => if occHead (c :: cs) then some 0 else (firstOccIdx cs).map (· + 1)

/-- The greatest `j ≤ n` at which an occurrence starts in `u`, if any. -/
def lastOccLe (u : List Char) : Nat → Option Nat
  | 0 => if occHead u then some 0 else none
  | j + 1 => if occHead (u.drop (j + 1)) then some (j + 1) else lastOccLe u j

/-- Length of the leftmost-then-greedy match of the window pattern
`.{0,200}indemnif(?:y|ication).{0,400}` when anchored at the start of `u`:
the greedy prefix reaches the LAST occurrence within the first
`min 200 u.length` positions, then the token, then up to 400 characters. -/
def matchLenAt (u : List Char) : Nat :=
  match lastOccLe u (min 200 u.length) with
  | none => 0
  | some j => j + tokLenAt (u.drop j) + min 400 ((u.drop j).length - tokLenAt (u.drop j))

/-- The amended-claim model of the indemnity classifier: `"none"` when no
occurrence of "indemnify"/"indemnification" exists; otherwise the captured
window starts at `s = max(0, first − 200)` and is anchored not at the first
occurrence but at the LAST occurrence within 200 characters of `s` (the
greedy `.{0,200}` prefix), extending the token length plus up to 400
characters past the anchor; the window is classified by the mutuality
pattern. -/
def indemnityModel (t : List Char) : String :=
  match firstOccIdx t with
  | none => "none"
  | some i0 =>
    let u := t.drop (i0 - min i0 200)
    if reTest mutualRE (u.take (matchLenAt u)) then "mutual" else "one-sided"

/-- The length-counting continuation used by `tryMatchAt` at entry
remainder `u`. -/
def kLen (u : List Char) : List Char → List Char → Caps → Option (Nat × Caps) :=
  fun _ rem1 caps => some (u.length - rem1.length, caps)

/-- The tail of the window pattern after the greedy `.{0,200}` prefix:
`indemnif(?:y|ication).{0,400}`. -/
def indemnTailRE : RE :=
  .cat (lit "indemnif") (.cat (.alt (chrCI 'y') (lit "ication"))
    (.reps 0 (some 400) (fun c => c != '\n')))

/-- The C5 counterexample text: occurrences at positions 0 and 150, and
mutuality language ("both parties") at position 540 — beyond any window
around the FIRST occurrence (which ends by 0 + 9 + 400 = 409) but inside the
code's actual window, which is anchored at the occurrence at 150 and extends
to 150 + 9 + 400 = 559. -/
def C5cex : List Char :=
  "indemnify".data ++ List.replicate 141 'x' ++ "indemnify".data ++
    List.replicate 381 'x' ++ "both parties".data

/-! ## Helper lemmas -/

/-- The head of the stably sorted candidate list belongs to the list and is
minimal in the sort order (maximal priority, then minimal duration). -/
lemma sorted_head_min {picks : List (Nat × Nat)} {w : Nat × Nat}
    {rest : List (Nat × Nat)} (h : picks.insertionSort pickLeR = w :: rest) :
    w ∈ picks ∧ ∀ c ∈ picks, pickLeR w c := by
  have hperm := List.perm_insertionSort pickLeR picks
  have hsorted := List.sorted_insertionSort pickLeR picks
  rw [h] at hperm hsorted
  refine ⟨hperm.mem_iff.mp (List.mem_cons_self w rest), ?_⟩
  intro c hc
  rcases List.mem_cons.mp (hperm.mem_iff.mpr hc) with rfl | hcr
  · exact Or.inr ⟨rfl, le_refl _⟩
  · exact (List.sorted_cons.mp hsorted).1 c hcr

/-- Every `net`-family candidate is (2, 3) or an in-range value at priority 8. -/
lemma netPicks_shape {rel : List Char} {c : Nat × Nat} (hc : c ∈ netPicks rel) :
    (c.1 = 2 ∧ c.2 = 3) ∨ (5 ≤ c.1 ∧ c.1 ≤ 365 ∧ c.2 = 8) := by
  rcases List.mem_filterMap.mp hc with ⟨n?, -, hn⟩
  match n? with
  | none => simp [netCand] at hn
  | some n =>
    simp only [netCand] at hn
    split at hn
    · cases hn; simp_all
    · split at hn
      · cases hn; simp_all
      · cases hn

/-- Every `within`-family candidate is (2, 3) or an in-range value at priority 7. -/
lemma withinPicks_shape {rel : List Char} {c : Nat × Nat} (hc : c ∈ withinPicks rel) :
    (c.1 = 2 ∧ c.2 = 3) ∨ (5 ≤ c.1 ∧ c.1 ≤ 365 ∧ c.2 = 7) := by
  rcases List.mem_filterMap.mp hc with ⟨n?, -, hn⟩
  match n? with
  | none => simp [withinCand] at hn
  | some n =>
    simp only [withinCand] at hn
    split at hn
    · cases hn; simp_all
    · split at hn
      · cases hn; simp_all
      · cases hn

/-- Every `past due`-family candidate is an in-range value at priority 5. -/
lemma pastPicks_shape {rel : List Char} {c : Nat × Nat} (hc : c ∈ pastPicks rel) :
    5 ≤ c.1 ∧ c.1 ≤ 365 ∧ c.2 = 5 := by
  rcases List.mem_filterMap.mp hc with ⟨n, -, hn⟩
  simp only [pastCand] at hn
  split at hn
  · cases hn; simp_all
  · cases hn

/-- Every candidate's value is 2 or lies in 5..365. -/
lemma allPicks_shape {rel : List Char} {c : Nat × Nat} (hc : c ∈ allPicks rel) :
    c.1 = 2 ∨ (5 ≤ c.1 ∧ c.1 ≤ 365) := by
  rcases List.mem_append.mp hc with h | h
  · rcases List.mem_append.mp h with h | h
    · rcases netPicks_shape h with ⟨h1, -⟩ | ⟨h1, h2, -⟩
      · exact Or.inl h1
      · exact Or.inr ⟨h1, h2⟩
    · rcases withinPicks_shape h with ⟨h1, -⟩ | ⟨h1, h2, -⟩
      · exact Or.inl h1
      · exact Or.inr ⟨h1, h2⟩
  · exact Or.inr ⟨(pastPicks_shape h).1, (pastPicks_shape h).2.1⟩

end Boss

namespace Boss

/-! ## Claim C3 — resolver ordering -/

/-- **C3**: for every candidate list, the resolver returns absent on an empty
list; otherwise the winner is a candidate that is first in the order
"descending priority, ties by ascending duration" (so it is maximal in
priority and, among those, minimal in value), and the resolver returns its
value (subject to the value-2 guard). In particular from (30, 8) and (60, 7)
it returns 30, and (45, 7) beats (10, 5) regardless of magnitude or order. -/
theorem C3_resolver_priority_then_value (picks : List (Nat × Nat)) (rel : List Char) :
    resolvePicks [] rel = none ∧
    resolvePicks [(30, 8), (60, 7)] rel = some 30 ∧
    resolvePicks [(45, 7), (10, 5)] rel = some 45 ∧
    (picks ≠ [] → ∃ w, w ∈ picks ∧
      (∀ c ∈ picks, c.2 < w.2 ∨ (w.2 = c.2 ∧ w.1 ≤ c.1)) ∧
      resolvePicks picks rel =
        if w.1 = 2 then (if expTwoFound rel then some 2 else none) else some w.1) := by
  refine ⟨rfl, ?_, ?_, ?_⟩
  · simp [resolvePicks, List.insertionSort, List.orderedInsert, pickLeR]
  · simp [resolvePicks, List.insertionSort, List.orderedInsert, pickLeR]
  · intro hne
    cases hs : picks.insertionSort pickLeR with
    | nil =>
      have hperm := List.perm_insertionSort pickLeR picks
      rw [hs] at hperm
      exact absurd hperm.symm.eq_nil hne
    | cons w rest =>
      obtain ⟨hmem, hmin⟩ := sorted_head_min hs
      refine ⟨w, hmem, fun c hc => hmin c hc, ?_⟩
      unfold resolvePicks
      rw [hs]
      by_cases h2 : w.1 = 2 <;> simp [h2]

/-- Witness for C3 at the concrete list [(45, 7), (10, 5)]. -/
theorem C3_witness :
    ∃ w, w ∈ [(45, 7), (10, 5)] ∧
      (∀ c ∈ [(45, 7), (10, 5)], c.2 < w.2 ∨ (w.2 = c.2 ∧ w.1 ≤ c.1)) ∧
      resolvePicks [(45, 7), (10, 5)] [] =
        if w.1 = 2 then (if expTwoFound [] then some 2 else none) else some w.1 :=
  (C3_resolver_priority_then_value [(45, 7), (10, 5)] []).2.2.2 (by decide)

end Boss

namespace Boss

/-! ## Claim C4 — per-family candidate production -/

/-- **C4**: over any relevant text, the candidates of each pattern family are
exactly: net — (v, 8) for an extracted value 5 ≤ v ≤ 365 and (2, 3) for
value 2; within — (v, 7) and (2, 3) likewise; past due — (v, 5) for
5 ≤ v ≤ 365 only. No other values (in particular 3, 4, and anything above
365) ever become candidates. -/
theorem C4_family_candidate_windows (rel : List Char) :
    (∀ v p, (v, p) ∈ netPicks rel ↔
      some v ∈ netNums rel ∧ ((v = 2 ∧ p = 3) ∨ (5 ≤ v ∧ v ≤ 365 ∧ p = 8))) ∧
    (∀ v p, (v, p) ∈ withinPicks rel ↔
      some v ∈ withinNums rel ∧ ((v = 2 ∧ p = 3) ∨ (5 ≤ v ∧ v ≤ 365 ∧ p = 7))) ∧
    (∀ v p, (v, p) ∈ pastPicks rel ↔
      v ∈ pastNums rel ∧ 5 ≤ v ∧ v ≤ 365 ∧ p = 5) := by
  refine ⟨fun v p => ⟨fun h => ?_, fun h => ?_⟩,
          fun v p => ⟨fun h => ?_, fun h => ?_⟩,
          fun v p => ⟨fun h => ?_, fun h => ?_⟩⟩
  · rcases List.mem_filterMap.mp h with ⟨n?, hmem, hn⟩
    match n? with
    | none => simp [netCand] at hn
    | some n =>
      simp only [netCand] at hn
      split at hn
      · cases hn; subst_vars; exact ⟨hmem, Or.inl ⟨rfl, rfl⟩⟩
      · split at hn
        · cases hn; rename_i hrange; simp only [Bool.and_eq_true, decide_eq_true_eq] at hrange
          exact ⟨hmem, Or.inr ⟨hrange.1, hrange.2, rfl⟩⟩
        · cases hn
  · rcases h with ⟨hmem, ⟨hv, hp⟩ | ⟨h5, h365, hp⟩⟩
    · subst_vars
      exact List.mem_filterMap.mpr ⟨some 2, hmem, by simp [netCand]⟩
    · subst_vars
      refine List.mem_filterMap.mpr ⟨some v, hmem, ?_⟩
      simp only [netCand]
      rw [if_neg (by omega), if_pos (by simp; omega)]
  · rcases List.mem_filterMap.mp h with ⟨n?, hmem, hn⟩
    match n? with
    | none => simp [withinCand] at hn
    | some n =>
      simp only [withinCand] at hn
      split at hn
      · cases hn; subst_vars; exact ⟨hmem, Or.inl ⟨rfl, rfl⟩⟩
      · split at hn
        · cases hn; rename_i hrange; simp only [Bool.and_eq_true, decide_eq_true_eq] at hrange
          exact ⟨hmem, Or.inr ⟨hrange.1, hrange.2, rfl⟩⟩
        · cases hn
  · rcases h with ⟨hmem, ⟨hv, hp⟩ | ⟨h5, h365, hp⟩⟩
    · subst_vars
      exact List.mem_filterMap.mpr ⟨some 2, hmem, by simp [withinCand]⟩
    · subst_vars
      refine List.mem_filterMap.mpr ⟨some v, hmem, ?_⟩
      simp only [withinCand]
      rw [if_neg (by omega), if_pos (by simp; omega)]
  · rcases List.mem_filterMap.mp h with ⟨n, hmem, hn⟩
    simp only [pastCand] at hn
    split at hn
    · cases hn; rename_i hrange; simp only [Bool.and_eq_true, decide_eq_true_eq] at hrange
      exact ⟨hmem, hrange.1, hrange.2, rfl⟩
    · cases hn
  · rcases h with ⟨hmem, h5, h365, hp⟩
    subst_vars
    refine List.mem_filterMap.mpr ⟨v, hmem, ?_⟩
    simp only [pastCand]
    rw [if_pos (by simp; omega)]

/-- Witness for C4: the text "net 30" extracts the value 30 and thus the
candidate (30, 8) in the net family. -/
theorem C4_witness : (30, 8) ∈ netPicks "net 30".data :=
  ((C4_family_candidate_windows "net 30".data).1 30 8).mpr
    ⟨by decide, Or.inr (by norm_num)⟩

/-! ## Claim C9 — range invariant of the extraction -/

/-- **C9**: for every input text, `find_payment_days` returns absent, 2, or a
value in 5..365 — never 1, 3, 4 or anything above 365. -/
theorem C9_extraction_value_range (text : List Char) :
    find_payment_days text = none ∨ find_payment_days text = some 2 ∨
    ∃ n, find_payment_days text = some n ∧ 5 ≤ n ∧ n ≤ 365 := by
  unfold find_payment_days
  cases hs : (allPicks (relevantOf text)).insertionSort pickLeR with
  | nil =>
    left
    unfold resolvePicks
    rw [hs]
  | cons w rest =>
    have hmem := (sorted_head_min hs).1
    have hshape := allPicks_shape hmem
    unfold resolvePicks
    rw [hs]
    by_cases h2 : w.1 = 2
    · by_cases hex : expTwoFound (relevantOf text)
      · right; left; simp [h2, hex]
      · left; simp [h2, hex]
    · right; right
      refine ⟨w.1, by simp [h2], ?_, ?_⟩ <;> omega

end Boss

namespace Boss

/-! ## Claim C1 — "Net 2" alone -/

/-- **C1 counterexample**: for the input "Net 2" — whose only payment-related
phrase is "Net 2" itself, with no other duration phrase and no separate
anchor phrase — the extraction produces exactly the raw candidate (2, 3), yet
the resolver returns 2, not absent: the phrase "Net 2" itself satisfies the
`net\s*2` alternative of `EXPLICIT_TWO`. -/
theorem C1_counterexample :
    allPicks (relevantOf "Net 2".data) = [(2, 3)] ∧
    find_payment_days "Net 2".data = some 2 := by decide

/-- **C1 amended**: for an input whose only payment-related phrase is
"Net 2", the guard's re-scan finds the `net\s*2` anchor in that very phrase,
so the resolver returns 2 rather than absent. -/
theorem C1_net2_alone_returns_2 :
    expTwoFound (relevantOf "Invoices are Net 2".data) = true ∧
    find_payment_days "Invoices are Net 2".data = some 2 := by decide

/-! ## Claim C2 — the explicit-two guard forms -/

/-- **C2 counterexample**: for the input "net-2" the winning candidate's
value is 2 and the relevant text is exactly "net-2" — one of the claim's
listed anchor forms — yet the resolver returns absent, not 2: `EXPLICIT_TWO`'s
`net\s*2` alternative does not allow a hyphen between "net" and "2". -/
theorem C2_counterexample :
    winnerOf "net-2".data = some (2, 3) ∧
    relevantOf "net-2".data = "net-2".data ∧
    find_payment_days "net-2".data = none := by decide

/-- **C2 amended**: whenever the winning candidate's value equals 2, the
resolver returns 2 if and only if the RelevantText matches the `EXPLICIT_TWO`
pattern — `net` followed by optional whitespace and `2`, or `within` followed
by optional whitespace, an optionally parenthesised `2`, optional
"business", and "day(s)", case-insensitively with word boundaries.  The
hyphenated form "net-2" is not such an anchor, so it yields absent. -/
theorem C2_guard_is_EXPLICIT_TWO (text : List Char) (p : Nat)
    (h : winnerOf text = some (2, p)) :
    find_payment_days text =
      if expTwoFound (relevantOf text) then some 2 else none := by
  unfold winnerOf at h
  unfold find_payment_days resolvePicks
  cases hs : (allPicks (relevantOf text)).insertionSort pickLeR with
  | nil => rw [hs] at h; simp at h
  | cons w rest =>
    rw [hs] at h
    simp only [List.head?_cons, Option.some.injEq] at h
    subst h
    simp

/-- Witness for the amended C2 at the input "net 2", whose winner is (2, 3)
and whose relevant text does contain the anchor. -/
theorem C2_witness : find_payment_days "net 2".data = some 2 :=
  (C2_guard_is_EXPLICIT_TWO "net 2".data 3 (by decide)).trans (by decide)

/-! ## Claim C6 — digit "net d days" sentences -/

set_option maxHeartbeats 4000000 in
set_option maxRecDepth 10000 in
/-- **C6**: for every d with 5 ≤ d ≤ 365, the single sentence "net d days"
(d in digits) resolves to d. -/
theorem C6_net_digit_sentence_resolves (d : Nat) (h5 : 5 ≤ d) (h365 : d ≤ 365) :
    find_payment_days (netSentence d) = some d := by
  have hb : ∀ e : Nat, e < 366 → 5 ≤ e → find_payment_days (netSentence e) = some e := by
    decide
  exact hb d (by omega) h5

/-- Witness for C6 at d = 30. -/
theorem C6_witness : find_payment_days (netSentence 30) = some 30 :=
  C6_net_digit_sentence_resolves 30 (by norm_num) (by norm_num)

end Boss

namespace Boss

/-! ## Claim C7 — the fact-to-signal composer -/

/-- The payment light's label is fixed whatever the duration. -/
lemma paymentLight_label (days : Option Nat) :
    (paymentLight days).label = "Payment Terms" := by
  cases days with
  | none => rfl
  | some d => simp only [paymentLight]; split_ifs <;> rfl

/-- **C7**: the composer is a deterministic pure mapping — payment absent →
fail, ≤ 30 → pass, 31–60 → warn, > 60 → fail; the Insurance light is always
warn; the output always has exactly six entries with the fixed labels in
order (Payment Terms, NOA, Non-Solicit, Conversions, Indemnity, Insurance);
and recomposition on the same facts yields an identical output. -/
theorem C7_composer_mapping (days : Option Nat) (noa ns conv : Bool) (indem : String) :
    (lightsOf days noa ns conv indem).length = 6 ∧
    (lightsOf days noa ns conv indem).map Light.label =
      ["Payment Terms", "NOA to Rev Capital", "Client Hire / Non-Solicit",
       "Conversions", "Indemnity", "Insurance"] ∧
    (lightsOf days noa ns conv indem).head? = some (paymentLight days) ∧
    (days = none → (paymentLight days).status = "fail") ∧
    (∀ d, days = some d → d ≤ 30 → (paymentLight days).status = "pass") ∧
    (∀ d, days = some d → 31 ≤ d → d ≤ 60 → (paymentLight days).status = "warn") ∧
    (∀ d, days = some d → 60 < d → (paymentLight days).status = "fail") ∧
    (lightsOf days noa ns conv indem).getLast? =
      some ⟨"Insurance", "warn", "(client minimums not auto-evaluated here)"⟩ ∧
    lightsOf days noa ns conv indem = lightsOf days noa ns conv indem := by
  refine ⟨rfl, ?_, rfl, ?_, ?_, ?_, ?_, rfl, rfl⟩
  · simp [lightsOf, paymentLight_label]
  · rintro rfl; rfl
  · rintro d rfl h30
    simp [paymentLight, h30]
  · rintro d rfl h31 h60
    have : ¬ d ≤ 30 := by omega
    simp [paymentLight, this, h60]
  · rintro d rfl h60
    have h1 : ¬ d ≤ 30 := by omega
    have h2 : ¬ d ≤ 60 := by omega
    simp [paymentLight, h1, h2]

/-- Witness for C7 at days = some 45 (and the other facts fixed): six lights
and a warn payment status. -/
theorem C7_witness :
    (lightsOf (some 45) true false true "mutual").length = 6 ∧
    (paymentLight (some 45)).status = "warn" :=
  ⟨(C7_composer_mapping (some 45) true false true "mutual").1,
   (C7_composer_mapping (some 45) true false true "mutual").2.2.2.2.2.1 45 rfl
     (by norm_num) (by norm_num)⟩

/-! ## Claim C10 — substring keyword filter -/

/-- **C10**: the relevant-text filter tests substring containment, not
whole-word matching: "browse the internet" (keyword "net" only inside
"internet") and "see you Monday" (keyword "day" only inside "Monday") contain
no keyword as a whole word yet are kept; and the one-word text "net30" —
also without any whole-word keyword — is kept and feeds the candidate
(30, 8), resolving to 30. -/
theorem C10_filter_is_substring_containment :
    hasKeyword "browse the internet".data = true ∧
    containsWordKeyword "browse the internet".data = false ∧
    hasKeyword "see you Monday".data = true ∧
    containsWordKeyword "see you Monday".data = false ∧
    relevantOf "browse the internet".data = "browse the internet".data ∧
    containsWordKeyword "net30".data = false ∧
    (30, 8) ∈ netPicks (relevantOf "net30".data) ∧
    find_payment_days "net30".data = some 30 := by decide

end Boss

namespace Boss

/-! ## Claim C8 — the text normalizer -/

/-- The relation "not both whitespace" on adjacent characters. -/
def NoWsPair (a b : Char) : Prop := ¬(isPyWs a = true ∧ isPyWs b = true)

/-- Joint invariant of the whitespace-collapse pass: both outputs have no two
adjacent whitespace characters, and `collapseRun`'s output never starts with
whitespace. -/
lemma collapse_chain (l : List Char) :
    List.Chain' NoWsPair (collapseWs l) ∧
    List.Chain' NoWsPair (collapseRun l) ∧
    (∀ c, (collapseRun l).head? = some c → isPyWs c = false) := by
  induction l with
  | nil => refine ⟨List.chain'_nil, List.chain'_nil, ?_⟩; intro c h; simp [collapseRun] at h
  | cons c cs ih =>
    obtain ⟨ihW, ihR, ihRh⟩ := ih
    by_cases hc : isPyWs c
    · refine ⟨?_, ?_, ?_⟩
      · rw [collapseWs, if_pos hc]
        refine List.chain'_cons'.mpr ⟨?_, ihR⟩
        intro y hy h
        have := h.2
        rw [ihRh y hy] at this
        exact Bool.false_ne_true this
      · rw [collapseRun, if_pos hc]; exact ihR
      · rw [collapseRun, if_pos hc]; exact ihRh
    · have hch : ∀ y, NoWsPair c y := by
        intro y h
        exact hc h.1
      refine ⟨?_, ?_, ?_⟩
      · rw [collapseWs, if_neg hc]
        exact List.chain'_cons'.mpr ⟨fun y _ => hch y, ihW⟩
      · rw [collapseRun, if_neg hc]
        exact List.chain'_cons'.mpr ⟨fun y _ => hch y, ihW⟩
      · rw [collapseRun, if_neg hc]
        intro d hd
        rw [List.head?_cons, Option.some.injEq] at hd
        rw [hd] at hc
        simpa using hc

/-- On whitespace-only input the collapse pass yields `[]` or `[' ']`, and
the run-skipping helper yields `[]`. -/
lemma collapse_all_ws (l : List Char) (h : ∀ c ∈ l, isPyWs c = true) :
    (collapseWs l = [] ∨ collapseWs l = [' ']) ∧ collapseRun l = [] := by
  induction l with
  | nil => exact ⟨Or.inl rfl, rfl⟩
  | cons c cs ih =>
    have hc := h c (List.mem_cons_self c cs)
    obtain ⟨-, ihR⟩ := ih fun d hd => h d (List.mem_cons_of_mem c hd)
    constructor
    · rw [collapseWs, if_pos hc, ihR]; exact Or.inr rfl
    · rw [collapseRun, if_pos hc]; exact ihR

/-- The head of `dropWhile p` never satisfies `p`. -/
lemma head_dropWhile_false (p : Char → Bool) :
    ∀ l : List Char, ∀ c, (l.dropWhile p).head? = some c → p c = false := by
  intro l
  induction l with
  | nil => intro c h; simp at h
  | cons a as ih =>
    intro c h
    by_cases ha : p a
    · rw [List.dropWhile_cons_of_pos ha] at h; exact ih c h
    · rw [List.dropWhile_cons_of_neg ha, List.head?_cons, Option.some.injEq] at h
      rw [← h]; simpa using ha

/-- `dropWhile` keeps the last element if it keeps anything at all. -/
lemma getLast?_dropWhile (p : Char → Bool) :
    ∀ l : List Char, l.dropWhile p ≠ [] → (l.dropWhile p).getLast? = l.getLast? := by
  intro l
  induction l with
  | nil => intro h; simp at h
  | cons a as ih =>
    intro h
    by_cases ha : p a
    · rw [List.dropWhile_cons_of_pos ha] at h ⊢
      cases as with
      | nil => simp [List.dropWhile] at h
      | cons b bs => rw [ih h, List.getLast?_cons_cons]
    · rw [List.dropWhile_cons_of_neg ha]

/-- `dropWhile` preserves the no-adjacent-whitespace chain. -/
lemma chain'_dropWhile (p : Char → Bool) :
    ∀ l : List Char, List.Chain' NoWsPair l → List.Chain' NoWsPair (l.dropWhile p) := by
  intro l
  induction l with
  | nil => intro h; exact h
  | cons a as ih =>
    intro h
    by_cases ha : p a
    · rw [List.dropWhile_cons_of_pos ha]; exact ih (List.chain'_cons'.mp h).2
    · rw [List.dropWhile_cons_of_neg ha]; exact h

/-- `reverse` preserves the (symmetric) no-adjacent-whitespace chain. -/
lemma chain'_reverse_nws {l : List Char} (h : List.Chain' NoWsPair l) :
    List.Chain' NoWsPair l.reverse :=
  List.chain'_reverse.mpr (h.imp fun _ _ hab => fun ⟨h1, h2⟩ => hab ⟨h2, h1⟩)

/-- **C8**: `clean` is total on strings: whitespace-only (and empty) input
yields the empty string, and its output never starts or ends with whitespace
and never contains two adjacent whitespace characters. -/
theorem C8_normalizer_total_and_collapsed (s : String) :
    ((∀ c ∈ s.data, isPyWs c = true) → clean s = "") ∧
    (∀ c, (clean s).data.head? = some c → isPyWs c = false) ∧
    (∀ c, (clean s).data.getLast? = some c → isPyWs c = false) ∧
    List.Chain' NoWsPair (clean s).data := by
  have hdata : (clean s).data = stripWs (collapseWs s.data) := rfl
  refine ⟨?_, ?_, ?_, ?_⟩
  · intro h
    rcases (collapse_all_ws s.data h).1 with h0 | h1
    · show clean s = ""
      unfold clean
      rw [h0]
      rfl
    · show clean s = ""
      unfold clean
      rw [h1]
      rfl
  · intro c hc
    rw [hdata] at hc
    unfold stripWs at hc
    rw [List.head?_reverse] at hc
    set m1 := (collapseWs s.data).dropWhile isPyWs with hm1
    have hne : m1.reverse.dropWhile isPyWs ≠ [] := by
      intro h0; rw [h0] at hc; simp at hc
    rw [getLast?_dropWhile isPyWs m1.reverse hne, List.getLast?_reverse] at hc
    exact head_dropWhile_false isPyWs (collapseWs s.data) c hc
  · intro c hc
    rw [hdata] at hc
    unfold stripWs at hc
    rw [List.getLast?_reverse] at hc
    exact head_dropWhile_false isPyWs _ c hc
  · rw [hdata]
    unfold stripWs
    exact chain'_reverse_nws (chain'_dropWhile isPyWs _
      (chain'_reverse_nws (chain'_dropWhile isPyWs _ (collapse_chain s.data).1)))

/-- Witness for C8: the whitespace-only input "  " cleans to the empty
string. -/
theorem C8_witness : clean "  " = "" :=
  (C8_normalizer_total_and_collapsed "  ").1 (by decide)

end Boss

namespace Boss

/-! ## Claim C5 — engine lemmas for the indemnity window pattern -/

/-- A case-insensitive match of `w` needs at least `w.length` characters. -/
lemma ciPre_length {w u : List Char} (h : ciPre w u) : w.length ≤ u.length := by
  unfold ciPre at h
  have := congrArg List.length h
  simp only [List.length_map, List.length_take] at this
  omega

/-- Splitting a case-insensitive literal match at a concatenation. -/
lemma ciPre_append (w1 w2 u : List Char) :
    ciPre (w1 ++ w2) u ↔ ciPre w1 u ∧ ciPre w2 (u.drop w1.length) := by
  induction w1 generalizing u with
  | nil => simp [ciPre]
  | cons c w1' ih =>
    cases u with
    | nil => simp [ciPre]
    | cons d u' =>
      have ih' := ih u'
      unfold ciPre at ih'
      simp only [List.cons_append, ciPre, List.length_cons, List.take_succ_cons,
        List.map_cons, List.cons.injEq, List.drop_succ_cons]
      rw [ih']
      tauto

/-- On a run of characters all satisfying `p`, the capped maximal run length
is the cap-or-length minimum. -/
lemma maxRun_all_sat {p : Char → Bool} {u : List Char} (h : ∀ c ∈ u, p c = true) :
    ∀ n, maxRun p (some n) u = min n u.length := by
  induction u with
  | nil => intro n; simp [maxRun]
  | cons c cs ih =>
    intro n
    rw [maxRun]
    rcases Nat.eq_zero_or_pos n with rfl | hn
    · rw [if_pos rfl]
      omega
    · rw [if_neg (fun hcon => by injection hcon with h0; omega),
          if_pos (h c (List.mem_cons_self c cs))]
      rw [show Option.map (· - 1) (some n) = some (n - 1) from rfl]
      rw [ih (fun d hd => h d (List.mem_cons_of_mem c hd)) (n - 1)]
      simp only [List.length_cons]
      omega

/-- The matcher on a case-insensitive literal: succeed exactly on a
case-insensitive prefix match, consuming the literal's length. -/
lemma mrun_litL {α : Type} (w : List Char) :
    ∀ (rev u : List Char) (caps : Caps) (k : List Char → List Char → Caps → Option α),
      mrun (litL w) rev u caps k =
        if ciPre w u then k ((u.take w.length).reverse ++ rev) (u.drop w.length) caps
        else none := by
  induction w with
  | nil =>
    intro rev u caps k
    rw [if_pos (by simp [ciPre])]
    simp [litL, mrun]
  | cons c w' ih =>
    intro rev u caps k
    cases u with
    | nil =>
      rw [if_neg (by simp [ciPre])]
      simp [litL, chrCI, mrun]
    | cons d u' =>
      simp only [litL, mrun, chrCI]
      by_cases hd : d.toLower = c
      · rw [if_pos (decide_eq_true hd), ih (d :: rev) u' caps k]
        by_cases hw : ciPre w' u'
        · rw [if_pos hw, if_pos (by
            unfold ciPre at hw ⊢
            simp only [List.length_cons, List.take_succ_cons, List.map_cons]
            exact List.cons_eq_cons.mpr ⟨hd, hw⟩)]
          simp only [List.length_cons, List.take_succ_cons, List.drop_succ_cons,
            List.reverse_cons]
          rw [List.append_assoc]
          rfl
        · rw [if_neg hw, if_neg (by
            unfold ciPre at hw ⊢
            simp only [List.length_cons, List.take_succ_cons, List.map_cons]
            intro hcon
            exact hw (List.cons_eq_cons.mp hcon).2)]
      · rw [if_neg (fun h => hd (of_decide_eq_true h)), if_neg (by
          unfold ciPre
          simp only [List.length_cons, List.take_succ_cons, List.map_cons]
          intro hcon
          exact hd (List.cons_eq_cons.mp hcon).1)]

end Boss

namespace Boss

/-- `repsGo` with minimum 0 and a continuation succeeding at the greedy
(first-tried) consumption `j` returns that success. -/
lemma repsGo_zero_total {α : Type} {rev u : List Char} {caps : Caps}
    {k : List Char → List Char → Caps → Option α} {j : Nat} {v : α}
    (hk : k ((u.take j).reverse ++ rev) (u.drop j) caps = some v) :
    repsGo 0 rev u caps k j = some v := by
  cases j with
  | zero =>
    simp only [List.take_zero, List.reverse_nil, List.nil_append, List.drop_zero] at hk
    rw [repsGo, if_pos rfl, hk]
  | succ j' =>
    rw [repsGo, if_pos (Nat.zero_le _), hk]
    rfl

/-- The token word "indemnify" splits as "indemnif" ++ "y". -/
lemma indemnify_split : "indemnify".data = "indemnif".data ++ "y".data := by decide

/-- The token word "indemnification" splits as "indemnif" ++ "ication". -/
lemma indemnification_split :
    "indemnification".data = "indemnif".data ++ "ication".data := by decide

end Boss

namespace Boss

/-- Single-character matcher on empty input fails. -/
lemma mrun_chrCI_nil {α : Type} (c : Char) (rev : List Char) (caps : Caps)
    (k : List Char → List Char → Caps → Option α) :
    mrun (chrCI c) rev [] caps k = none := rfl

/-- Single-character case-insensitive matcher on a cons. -/
lemma mrun_chrCI_cons {α : Type} (c d : Char) (rev u2 : List Char) (caps : Caps)
    (k : List Char → List Char → Caps → Option α) :
    mrun (chrCI c) rev (d :: u2) caps k =
      if d.toLower = c then k (d :: rev) u2 caps else none := by
  simp [mrun, chrCI]

/-- Unfolding `mrun` on a greedy class repetition. -/
lemma mrun_reps_eq {α : Type} (lo : Nat) (hi : Option Nat) (p : Char → Bool)
    (rev u : List Char) (caps : Caps) (k : List Char → List Char → Caps → Option α) :
    mrun (.reps lo hi p) rev u caps k = repsGo lo rev u caps k (maxRun p hi u) := rfl

/-- The "indemnif(?:y|ication).{0,400}" tail of the window pattern, run at
offset `j` of `u` with the length-counting continuation of `tryMatchAt`:
it succeeds exactly on an occurrence, consuming up to the token's end plus
greedily up to 400 further characters. -/
lemma mrun_indemnTail {u : List Char} (hnl : ∀ c ∈ u, c ≠ '\n') (j : Nat)
    (rev1 : List Char) (caps1 : Caps) :
    mrun indemnTailRE rev1 (u.drop j) caps1 (kLen u) =
      (if occHead (u.drop j) then
        some (j + tokLenAt (u.drop j) +
          min 400 ((u.drop j).length - tokLenAt (u.drop j)), caps1)
      else none) := by
  have hnl' : ∀ (l : List Char), (∀ c ∈ l, c ∈ u) →
      ∀ c ∈ l, (fun c => c != '\n') c = true := by
    intro l hsub c hc
    simpa using hnl c (hsub c hc)
  have hlen8 : ("indemnif".data : List Char).length = 8 := by decide
  have hlen9 : ("indemnify".data : List Char).length = 9 := by decide
  have hlen15 : ("indemnification".data : List Char).length = 15 := by decide
  have hu1len : (u.drop j).length = u.length - j := List.length_drop j u
  rw [show mrun indemnTailRE rev1 (u.drop j) caps1 (kLen u) =
        mrun (litL "indemnif".data) rev1 (u.drop j) caps1
          (fun rev2 rem2 caps2 =>
            mrun (.cat (.alt (chrCI 'y') (lit "ication"))
              (.reps 0 (some 400) (fun c => c != '\n'))) rev2 rem2 caps2 (kLen u))
      from rfl]
  rw [mrun_litL]
  by_cases hpre : ciPre "indemnif".data (u.drop j)
  · rw [if_pos hpre]
    have h8le : 8 ≤ (u.drop j).length := hlen8 ▸ ciPre_length hpre
    have hd8len : ((u.drop j).drop 8).length = u.length - j - 8 := by
      rw [List.length_drop, hu1len]
    have hmem8 : ∀ c ∈ (u.drop j).drop 8, c ∈ u := fun c hc =>
      List.mem_of_mem_drop (List.mem_of_mem_drop hc)
    show mrun (.cat (.alt (chrCI 'y') (lit "ication"))
        (.reps 0 (some 400) (fun c => c != '\n')))
        (((u.drop j).take ("indemnif".data).length).reverse ++ rev1)
        ((u.drop j).drop ("indemnif".data).length) caps1 (kLen u) = _
    rw [hlen8]
    rw [show mrun (.cat (.alt (chrCI 'y') (lit "ication"))
          (.reps 0 (some 400) (fun c => c != '\n')))
          (((u.drop j).take 8).reverse ++ rev1) ((u.drop j).drop 8) caps1 (kLen u) =
        (mrun (chrCI 'y') (((u.drop j).take 8).reverse ++ rev1) ((u.drop j).drop 8) caps1
          (fun rev3 rem3 caps3 =>
            mrun (.reps 0 (some 400) (fun c => c != '\n')) rev3 rem3 caps3 (kLen u))).orElse
        (fun _ => mrun (litL "ication".data)
          (((u.drop j).take 8).reverse ++ rev1) ((u.drop j).drop 8) caps1
          (fun rev3 rem3 caps3 =>
            mrun (.reps 0 (some 400) (fun c => c != '\n')) rev3 rem3 caps3 (kLen u)))
      from rfl]
    by_cases hy : ciPre "indemnify".data (u.drop j)
    · -- the 'y' alternative participates
      have hy' : ciPre "y".data ((u.drop j).drop 8) := by
        have := ((ciPre_append "indemnif".data "y".data (u.drop j)).mp
          (indemnify_split ▸ hy)).2
        rwa [hlen8] at this
      have h9le : 9 ≤ (u.drop j).length := hlen9 ▸ ciPre_length hy
      cases hsplit : (u.drop j).drop 8 with
      | nil =>
        rw [hsplit] at hd8len
        simp only [List.length_nil] at hd8len
        omega
      | cons d u2 =>
        rw [hsplit] at hy'
        have hdy : d.toLower = 'y' := by
          unfold ciPre at hy'
          simpa using hy'
        have hu2len : u2.length = u.length - j - 9 := by
          have h0 := hd8len
          rw [hsplit] at h0
          simp only [List.length_cons] at h0
          omega
        have hmemu2 : ∀ c ∈ u2, c ∈ u := by
          intro c hc
          apply hmem8
          rw [hsplit]
          exact List.mem_cons_of_mem d hc
        have harml : mrun (chrCI 'y') (((u.drop j).take 8).reverse ++ rev1) (d :: u2) caps1
            (fun rev3 rem3 caps3 =>
              mrun (.reps 0 (some 400) (fun c => c != '\n')) rev3 rem3 caps3 (kLen u)) =
            some (u.length - (u2.drop (min 400 u2.length)).length, caps1) := by
          rw [mrun_chrCI_cons, if_pos hdy]
          show mrun (.reps 0 (some 400) (fun c => c != '\n')) _ u2 caps1 (kLen u) = _
          rw [mrun_reps_eq, maxRun_all_sat (hnl' u2 hmemu2) 400]
          exact repsGo_zero_total rfl
        rw [harml]
        show some _ = _
        rw [if_pos (show occHead (u.drop j) from Or.inl hy)]
        unfold tokLenAt
        rw [if_pos hy]
        simp only [List.length_drop]
        rw [Option.some.injEq, Prod.mk.injEq]
        refine ⟨?_, rfl⟩
        omega
    · -- the 'y' alternative fails; the "ication" alternative decides
      have hynot : ∀ d u2, (u.drop j).drop 8 = d :: u2 → ¬ d.toLower = 'y' := by
        intro d u2 hsplit hdy
        apply hy
        rw [indemnify_split, ciPre_append, hlen8]
        refine ⟨hpre, ?_⟩
        rw [hsplit]
        unfold ciPre
        simpa using hdy
      have hybranch :
          mrun (chrCI 'y') (((u.drop j).take 8).reverse ++ rev1) ((u.drop j).drop 8) caps1
            (fun rev3 rem3 caps3 =>
              mrun (.reps 0 (some 400) (fun c => c != '\n')) rev3 rem3 caps3 (kLen u)) =
            none := by
        cases hsplit : (u.drop j).drop 8 with
        | nil => exact mrun_chrCI_nil 'y' _ _ _
        | cons d u2 =>
          rw [mrun_chrCI_cons, if_neg (hynot d u2 hsplit)]
      rw [hybranch]
      rw [show (Option.orElse none fun _ => mrun (litL "ication".data)
            (((u.drop j).take 8).reverse ++ rev1) ((u.drop j).drop 8) caps1
            (fun rev3 rem3 caps3 =>
              mrun (.reps 0 (some 400) (fun c => c != '\n')) rev3 rem3 caps3 (kLen u))) =
          mrun (litL "ication".data)
            (((u.drop j).take 8).reverse ++ rev1) ((u.drop j).drop 8) caps1
            (fun rev3 rem3 caps3 =>
              mrun (.reps 0 (some 400) (fun c => c != '\n')) rev3 rem3 caps3 (kLen u))
        from rfl]
      rw [mrun_litL]
      by_cases hic : ciPre "indemnification".data (u.drop j)
      · have hic' : ciPre "ication".data ((u.drop j).drop 8) := by
          have := ((ciPre_append "indemnif".data "ication".data (u.drop j)).mp
            (indemnification_split ▸ hic)).2
          rwa [hlen8] at this
        have h15le : 15 ≤ (u.drop j).length := hlen15 ▸ ciPre_length hic
        rw [if_pos hic']
        show mrun (.reps 0 (some 400) (fun c => c != '\n')) _
          (((u.drop j).drop 8).drop ("ication".data).length) caps1 (kLen u) = _
        rw [show ("ication".data : List Char).length = 7 from by decide]
        rw [mrun_reps_eq]
        rw [maxRun_all_sat (hnl' (((u.drop j).drop 8).drop 7)
          (fun c hc => hmem8 c (List.mem_of_mem_drop hc))) 400]
        rw [repsGo_zero_total
          (v := (u.length - ((((u.drop j).drop 8).drop 7).drop
            (min 400 (((u.drop j).drop 8).drop 7).length)).length, caps1)) rfl]
        rw [if_pos (show occHead (u.drop j) from Or.inr hic)]
        unfold tokLenAt
        rw [if_neg hy]
        simp only [List.length_drop]
        rw [Option.some.injEq, Prod.mk.injEq]
        refine ⟨?_, rfl⟩
        omega
      · rw [if_neg (fun h => hic (by
          rw [indemnification_split, ciPre_append, hlen8]
          exact ⟨hpre, h⟩))]
        rw [if_neg (fun h => by
          rcases h with hy2 | hic2
          · exact hy hy2
          · exact hic hic2)]
  · rw [if_neg hpre]
    rw [if_neg (fun h => by
      rcases h with hy2 | hic2
      · exact hpre ((ciPre_append "indemnif".data "y".data (u.drop j)).mp
          (indemnify_split ▸ hy2)).1
      · exact hpre ((ciPre_append "indemnif".data "ication".data (u.drop j)).mp
          (indemnification_split ▸ hic2)).1)]

end Boss

namespace Boss

/-- Unfolding the window pattern: greedy `.{0,200}` prefix, then the tail. -/
lemma tryMatchAt_indemn_unfold (rev u : List Char) :
    tryMatchAt indemnRE rev u =
      repsGo 0 rev u []
        (fun rev1 rem1 caps1 => mrun indemnTailRE rev1 rem1 caps1 (kLen u))
        (maxRun (fun c => c != '\n') (some 200) u) := rfl

/-- An occurrence needs at least nine characters. -/
lemma occHead_nine {u : List Char} (h : occHead u) : 9 ≤ u.length := by
  rcases h with h | h
  · exact (show ("indemnify".data : List Char).length = 9 from by decide) ▸ ciPre_length h
  · have h15 := ciPre_length h
    rw [show ("indemnification".data : List Char).length = 15 from by decide] at h15
    omega

/-- What a successful `lastOccLe` lookup means. -/
lemma lastOccLe_spec {u : List Char} :
    ∀ n j, lastOccLe u n = some j → j ≤ n ∧ occHead (u.drop j) := by
  intro n
  induction n with
  | zero =>
    intro j h
    rw [lastOccLe] at h
    by_cases hocc : occHead u
    · rw [if_pos hocc] at h
      injection h with h0
      subst h0
      exact ⟨le_refl 0, by simpa using hocc⟩
    · rw [if_neg hocc] at h
      exact absurd h (by simp)
  | succ n ih =>
    intro j h
    rw [lastOccLe] at h
    by_cases hocc : occHead (u.drop (n + 1))
    · rw [if_pos hocc] at h
      injection h with h0
      subst h0
      exact ⟨le_refl _, hocc⟩
    · rw [if_neg hocc] at h
      obtain ⟨h1, h2⟩ := ih j h
      exact ⟨Nat.le_succ_of_le h1, h2⟩

/-- What a failed `lastOccLe` lookup means. -/
lemma lastOccLe_none {u : List Char} :
    ∀ n, lastOccLe u n = none → ∀ j ≤ n, ¬ occHead (u.drop j) := by
  intro n
  induction n with
  | zero =>
    intro h j hj
    rw [Nat.le_zero.mp hj]
    rw [lastOccLe] at h
    by_cases hocc : occHead u
    · rw [if_pos hocc] at h; exact absurd h (by simp)
    · simpa using hocc
  | succ n ih =>
    intro h j hj
    rw [lastOccLe] at h
    by_cases hocc : occHead (u.drop (n + 1))
    · rw [if_pos hocc] at h; exact absurd h (by simp)
    · rcases Nat.lt_or_ge j (n + 1) with hlt | hge
      · exact ih (by rwa [if_neg hocc] at h) j (by omega)
      · rw [show j = n + 1 from by omega]
        exact hocc

/-- `firstOccIdx = none` means no occurrence anywhere. -/
lemma firstOccIdx_none_spec :
    ∀ t : List Char, firstOccIdx t = none → ∀ j, ¬ occHead (t.drop j) := by
  intro t
  induction t with
  | nil =>
    intro _ j
    rw [List.drop_nil]
    decide
  | cons c cs ih =>
    intro h j
    rw [firstOccIdx] at h
    by_cases hocc : occHead (c :: cs)
    · rw [if_pos hocc] at h; exact absurd h (by simp)
    · rw [if_neg hocc] at h
      have hcs : firstOccIdx cs = none := by
        cases hfc : firstOccIdx cs with
        | none => rfl
        | some i => rw [hfc] at h; exact absurd h (by simp)
      cases j with
      | zero => simpa using hocc
      | succ j' => rw [List.drop_succ_cons]; exact ih hcs j'

/-- What a successful `firstOccIdx` lookup means: an occurrence there and
none before. -/
lemma firstOccIdx_some_spec :
    ∀ t : List Char, ∀ i, firstOccIdx t = some i →
      occHead (t.drop i) ∧ ∀ j < i, ¬ occHead (t.drop j) := by
  intro t
  induction t with
  | nil => intro i h; exact absurd h (by simp [firstOccIdx])
  | cons c cs ih =>
    intro i h
    rw [firstOccIdx] at h
    by_cases hocc : occHead (c :: cs)
    · rw [if_pos hocc] at h
      injection h with h0
      subst h0
      exact ⟨by simpa using hocc, fun j hj => absurd hj (Nat.not_lt_zero j)⟩
    · rw [if_neg hocc] at h
      cases hfc : firstOccIdx cs with
      | none => rw [hfc] at h; exact absurd h (by simp)
      | some i' =>
        rw [hfc] at h
        simp only [Option.map] at h
        injection h with h0
        subst h0
        obtain ⟨h1, h2⟩ := ih i' hfc
        refine ⟨by rwa [List.drop_succ_cons], ?_⟩
        intro j hj
        cases j with
        | zero => simpa using hocc
        | succ j' =>
          rw [List.drop_succ_cons]
          exact h2 j' (by omega)

/-- An occurrence at `j` forces a first occurrence at some `i ≤ j`. -/
lemma firstOccIdx_le {t : List Char} {j : Nat} (hocc : occHead (t.drop j)) :
    ∃ i, firstOccIdx t = some i ∧ i ≤ j := by
  cases hf : firstOccIdx t with
  | none => exact absurd hocc (firstOccIdx_none_spec t hf j)
  | some i =>
    refine ⟨i, rfl, ?_⟩
    by_contra hgt
    push_neg at hgt
    exact (firstOccIdx_some_spec t i hf).2 j hgt hocc

/-- The anchored match of the window pattern: it succeeds iff some occurrence
starts within the greedy prefix's reach, anchoring at the LAST such
occurrence. -/
lemma tryMatchAt_indemn {u : List Char} (hnl : ∀ c ∈ u, c ≠ '\n') (rev : List Char) :
    tryMatchAt indemnRE rev u =
      match lastOccLe u (min 200 u.length) with
      | none => none
      | some j => some (j + tokLenAt (u.drop j) +
          min 400 ((u.drop j).length - tokLenAt (u.drop j)), []) := by
  rw [tryMatchAt_indemn_unfold]
  rw [maxRun_all_sat (fun c hc => by simpa using hnl c hc) 200]
  suffices h : ∀ m, repsGo 0 rev u []
      (fun rev1 rem1 caps1 => mrun indemnTailRE rev1 rem1 caps1 (kLen u)) m =
      match lastOccLe u m with
      | none => none
      | some j => some (j + tokLenAt (u.drop j) +
          min 400 ((u.drop j).length - tokLenAt (u.drop j)), []) from h _
  intro m
  induction m with
  | zero =>
    rw [repsGo, if_pos rfl]
    show mrun indemnTailRE rev u [] (kLen u) = _
    have h0 := mrun_indemnTail hnl 0 rev []
    rw [List.drop_zero] at h0
    rw [h0, lastOccLe]
    by_cases hocc : occHead u
    · rw [if_pos hocc, if_pos hocc]
      simp
    · rw [if_neg hocc, if_neg hocc]
  | succ m ih =>
    rw [show repsGo 0 rev u []
          (fun rev1 rem1 caps1 => mrun indemnTailRE rev1 rem1 caps1 (kLen u)) (m + 1) =
        (mrun indemnTailRE ((u.take (m + 1)).reverse ++ rev) (u.drop (m + 1)) [] (kLen u)).orElse
          (fun _ => repsGo 0 rev u []
            (fun rev1 rem1 caps1 => mrun indemnTailRE rev1 rem1 caps1 (kLen u)) m)
      from by rw [repsGo, if_pos (Nat.zero_le _)]]
    rw [mrun_indemnTail hnl (m + 1) ((u.take (m + 1)).reverse ++ rev) []]
    rw [lastOccLe]
    by_cases hocc : occHead (u.drop (m + 1))
    · rw [if_pos hocc, if_pos hocc]
      rfl
    · rw [if_neg hocc, if_neg hocc]
      show repsGo 0 rev u []
        (fun rev1 rem1 caps1 => mrun indemnTailRE rev1 rem1 caps1 (kLen u)) m = _
      exact ih

end Boss

namespace Boss

/-- `re.search` of the window pattern: it fails iff no occurrence exists;
otherwise the match starts at `max(0, first − 200)` with the greedy length
`matchLenAt` of the remaining text. -/
lemma searchFrom_indemn :
    ∀ (t : List Char), (∀ c ∈ t, c ≠ '\n') → ∀ (rev : List Char) (idx : Nat),
      searchFrom indemnRE rev t idx =
        match firstOccIdx t with
        | none => none
        | some i0 =>
          some (idx + (i0 - min i0 200), matchLenAt (t.drop (i0 - min i0 200)), []) := by
  intro t
  induction t with
  | nil => intro _ rev idx; rfl
  | cons c cs ih =>
    intro hnl rev idx
    rw [searchFrom, tryMatchAt_indemn hnl rev]
    cases hlast : lastOccLe (c :: cs) (min 200 (c :: cs).length) with
    | some j =>
      obtain ⟨hjle, hjocc⟩ := lastOccLe_spec _ j hlast
      obtain ⟨i0, hf, hi0⟩ := firstOccIdx_le hjocc
      rw [hf]
      have h200 : i0 ≤ 200 := le_trans hi0 (le_trans hjle (Nat.min_le_left _ _))
      have hs0 : i0 - min i0 200 = 0 := by omega
      show some (idx, j + tokLenAt ((c :: cs).drop j) +
          min 400 (((c :: cs).drop j).length - tokLenAt ((c :: cs).drop j)), ([] : Caps)) =
        some (idx + (i0 - min i0 200),
          matchLenAt ((c :: cs).drop (i0 - min i0 200)), ([] : Caps))
      rw [hs0]
      simp only [List.drop_zero, Nat.add_zero]
      unfold matchLenAt
      rw [hlast]
    | none =>
      show searchFrom indemnRE (c :: rev) cs (idx + 1) = _
      rw [ih (fun d hd => hnl d (List.mem_cons_of_mem c hd)) (c :: rev) (idx + 1)]
      have hnotocc : ¬ occHead (c :: cs) := by
        have := lastOccLe_none _ hlast 0 (Nat.zero_le _)
        simpa using this
      cases hfc : firstOccIdx cs with
      | none =>
        rw [show firstOccIdx (c :: cs) = none from by
          rw [firstOccIdx, if_neg hnotocc, hfc]; rfl]
      | some i' =>
        have hocc' : occHead (cs.drop i') := (firstOccIdx_some_spec cs i' hfc).1
        rw [show firstOccIdx (c :: cs) = some (i' + 1) from by
          rw [firstOccIdx, if_neg hnotocc, hfc]; rfl]
        have hge : 200 ≤ i' := by
          by_contra hlt
          push_neg at hlt
          have hjle : i' + 1 ≤ min 200 (c :: cs).length := by
            have h9 := occHead_nine hocc'
            rw [List.length_drop] at h9
            simp only [List.length_cons]
            omega
          exact lastOccLe_none _ hlast (i' + 1) hjle (by simpa using hocc')
        have e1 : i' + 1 - min (i' + 1) 200 = (i' - min i' 200) + 1 := by omega
        show some (idx + 1 + (i' - min i' 200),
            matchLenAt (cs.drop (i' - min i' 200)), ([] : Caps)) =
          some (idx + (i' + 1 - min (i' + 1) 200),
            matchLenAt ((c :: cs).drop (i' + 1 - min (i' + 1) 200)), ([] : Caps))
        rw [e1, List.drop_succ_cons,
          show idx + 1 + (i' - min i' 200) = idx + ((i' - min i' 200) + 1) from by omega]

set_option maxRecDepth 100000 in
set_option maxHeartbeats 4000000 in
/-- **C5 counterexample**: in `C5cex` the first occurrence of an
"indemnif…" token is at position 0, and no mutuality language appears within
the first 500 characters — so any window of up to 200 characters before and
400 after that FIRST occurrence (it ends by position 409) contains no
mutuality language and the claim predicts `"one-sided"` — yet the classifier
returns `"mutual"`: the greedy `.{0,200}` prefix anchors the window at the
LATER occurrence at position 150, stretching the window to position 559,
which includes "both parties" at 540. -/
theorem C5_counterexample :
    firstOccIdx C5cex = some 0 ∧
    reTest mutualRE (C5cex.take 500) = false ∧
    find_indemnity C5cex = "mutual" := by decide

/-- **C5 amended**: on newline-free text (NormalizedText contains no
newlines), the classifier returns `"none"` exactly when no occurrence of
"indemnify"/"indemnification" exists; otherwise the captured window starts at
`max(0, first − 200)` but is anchored at the LAST occurrence within 200
characters of that start (the greedy `.{0,200}` prefix), extends the token
plus up to 400 characters past that anchor, and is classified `"mutual"` iff
it contains the mutuality pattern (`each\s+party`, `mutual(?:ly)?\s+indemn` —
note: any word starting "indemn…" — or `both\s+parties`), else
`"one-sided"`. -/
theorem C5_window_greedy_anchor (t : List Char) (hnl : ∀ c ∈ t, c ≠ '\n') :
    find_indemnity t = indemnityModel t := by
  unfold find_indemnity indemnityModel
  rw [searchFrom_indemn t hnl [] 0]
  cases hf : firstOccIdx t with
  | none => rfl
  | some i0 =>
    show (if reTest mutualRE ((t.drop (0 + (i0 - min i0 200))).take
        (matchLenAt (t.drop (i0 - min i0 200)))) = true then "mutual" else "one-sided") = _
    rw [Nat.zero_add]

/-- Witness for the amended C5 at a concrete one-sided text. -/
theorem C5_witness :
    (∀ c ∈ ("Contractor shall indemnify Client".data : List Char), c ≠ '\n') ∧
    find_indemnity "Contractor shall indemnify Client".data =
      indemnityModel "Contractor shall indemnify Client".data :=
  ⟨by decide, C5_window_greedy_anchor "Contractor shall indemnify Client".data (by decide)⟩

end Boss
